import Mathlib

/-!
# Verification of the azure-openai-proxy dispatch core

A shallow embedding, in Lean 4, of the dispatch core of the
`azure-openai-proxy` Go repository: the sliding-window rate limiter
(`internal/utils`, `RateLimiter`), the error model (`internal/errors`),
the request transformer (`internal/services`, `RequestTransformer`),
the instance selector (`internal/instance/selector.go`), the instance
state machinery (`internal/config/models.go`, `internal/instance/manager.go`,
and the handler-side accounting in `internal/handlers`), and the
dispatcher (`handleProxyRequest`).

Modelling conventions, used throughout:

* Go `int`/`int64` are modelled as `Int` (no overflow modelling; all
  quantities involved are far from the 64-bit range in the scenarios of
  interest).
* Go `float64` is modelled as `ℚ`; the float arithmetic appearing in the
  source (error-rate percentages, the latency EMA with coefficients 0.9
  and 0.1) is exact on the value ranges of interest, so `ℚ` arithmetic
  is a faithful model.
* `map[string]interface{}` values decoded from JSON are modelled as
  association lists with distinct keys (`Payload`); JSON decoding turns
  every number into a `float64`, modelled by the `JsonVal.num`
  constructor, while integers written into a map by Go code itself are
  `JsonVal.int`.
* Redis, the state store, the token estimator (the tiktoken BPE
  library) and the HTTP transport are external collaborators; they are
  modelled as explicit oracle inputs (`Except`-valued parameters or
  oracle functions), exactly at the call boundaries the Go code uses.
-/

namespace AzureOpenAIProxy

/-! ## Go string primitives

Helpers mirroring the Go standard-library functions the core uses:
`strings.ToLower`, `strings.Contains`, `strings.Split` (first field),
`strings.HasPrefix` and `strconv.Atoi`.
-/

/-- `strings.ToLower`, restricted to ASCII case folding (all model and
instance names in the system are ASCII). -/
def goToLower (s : String) : String :=
  String.mk (s.toList.map Char.toLower)

/-- `strings.Contains s sub`: substring containment. -/
def goContains (s sub : String) : Bool :=
  decide (sub.toList <:+: s.toList)

/-- Characters before the first `':'`. -/
def splitFirstAux : List Char → List Char
  | [] => []
  | c :: cs => if c = ':' then [] else c :: splitFirstAux cs

/-- The first field of `strings.Split s ":"`, as used on window members
of the form `"<tokens>:<nanos>"`. `strings.Split` always returns at
least one field. -/
def goSplitFirst (s : String) : String :=
  String.mk (splitFirstAux s.toList)

/-- `strings.HasPrefix`. -/
def goStartsWith (s pre : String) : Bool :=
  decide (pre.toList <+: s.toList)

/-- Digits of a decimal numeral; `none` when empty or any character is
not a digit. -/
def digitsToNat : List Char → Option Nat
  | [] => none
  | cs => cs.foldl
      (fun acc c =>
        match acc with
        | none => none
        | some n => if c.isDigit then some (n * 10 + (c.toNat - '0'.toNat)) else none)
      (some 0)

/-- `strconv.Atoi`: optional sign followed by at least one digit
(64-bit range errors are not modelled; window members carry small token
counts). -/
def goAtoi (s : String) : Option Int :=
  match s.toList with
  | '+' :: cs => (digitsToNat cs).map (fun n => (n : Int))
  | '-' :: cs => (digitsToNat cs).map (fun n => -(n : Int))
  | cs => (digitsToNat cs).map (fun n => (n : Int))

/-- Go's `int(x)` conversion on a `float64`: truncation toward zero. -/
def goIntOfFloat (q : ℚ) : Int :=
  if 0 ≤ q then ⌊q⌋ else ⌈q⌉

/-! ## JSON values and payloads

`map[string]interface{}` values as they flow through the proxy.
Iteration order of Go maps is irrelevant to every property proved here
(the code only reads, copies, and point-updates keys), so an
association list with distinct keys is a faithful model.
-/

/-- A decoded JSON / `interface{}` value.  `num` is a number decoded
from JSON (`float64` in Go); `int` is an integer stored into a map by
Go code itself (as the `max_tokens` clamp does). -/
inductive JsonVal where
  | str (s : String)
  | num (q : ℚ)
  | int (n : Int)
  | bool (b : Bool)
  | null
  | arr (elems : List JsonVal)
  | obj (fields : List (String × JsonVal))

/-- A JSON object payload: association list of fields. -/
abbrev Payload := List (String × JsonVal)

/-- Map lookup: the value of key `k`, if present. -/
def lookupVal (p : Payload) (k : String) : Option JsonVal :=
  match p with
  | [] => none
  | kv :: rest => if kv.1 = k then some kv.2 else lookupVal rest k

/-- Copy of the map without key `k` (as in the transformer's
"copy all fields except model" loop). -/
def removeKey (p : Payload) (k : String) : Payload :=
  p.filter (fun kv => kv.1 ≠ k)

/-- Go map assignment `p[k] = v`: replace the value if the key exists,
insert otherwise. -/
def setKey (p : Payload) (k : String) (v : JsonVal) : Payload :=
  if p.any (fun kv => kv.1 = k) then
    p.map (fun kv => if kv.1 = k then (k, v) else kv)
  else
    p ++ [(k, v)]

/-! ## The errors package (`internal/errors`) -/

/-- `ErrorType`. -/
inductive ErrorType where
  | client
  | upstream
  | instanceErr
  | internal
  deriving DecidableEq

/-- `ProxyError`: type, message, HTTP status, details map, unix
timestamp. -/
structure ProxyError where
  type : ErrorType
  message : String
  statusCode : Int
  details : Payload
  timestamp : Int

/-- `NewClientError`. -/
def newClientError (message : String) (statusCode : Int) (details : Payload)
    (now : Int) : ProxyError :=
  ⟨.client, message, statusCode, details, now⟩

/-- `NewUpstreamError`. -/
def newUpstreamError (message : String) (statusCode : Int) (details : Payload)
    (now : Int) : ProxyError :=
  ⟨.upstream, message, statusCode, details, now⟩

/-- `NewInstanceError` (status 503). -/
def newInstanceError (message : String) (details : Payload) (now : Int) : ProxyError :=
  ⟨.instanceErr, message, 503, details, now⟩

/-- `NewInternalError` (status 500). -/
def newInternalError (message : String) (details : Payload) (now : Int) : ProxyError :=
  ⟨.internal, message, 500, details, now⟩

/-- `ProxyError.GetRetryAfter`: the `retry_after` detail when it is an
`int` or a `float64` (converted by `int(·)`), 0 otherwise. -/
def getRetryAfter (e : ProxyError) : Int :=
  match lookupVal e.details "retry_after" with
  | some (.int n) => n
  | some (.num q) => goIntOfFloat q
  | _ => 0

/-- The `Retry-After` header emitted by `sendErrorResponse`: set (to
the retry-after value) exactly when `GetRetryAfter` is positive. -/
def retryAfterHeader (e : ProxyError) : Option Int :=
  if 0 < getRetryAfter e then some (getRetryAfter e) else none

/-! ## The sliding-window rate limiter (`internal/utils`, `RateLimiter`)

The Redis sorted set holding the window is modelled as a list of
entries; the pipeline of `CheckCapacity` (evict + range-read) is an
`Except`-valued input: `Except.error` models a failed `pipe.Exec`,
`Except.ok window` models a successful execution against a window whose
pre-eviction contents are `window`.  The eviction
(`ZREMRANGEBYSCORE -inf (now-60)`) removes entries with
`score ≤ now − 60`; the subsequent `ZRANGEWITHSCORES 0 -1` returns the
remaining entries.  Scores are unix seconds (stored as integral
`float64`; the `int64(entry.Score)` conversion in the source is exact),
modelled as `Int`.
-/

/-- One sorted-set entry: member string `"<tokens>:<nanos>"` and its
score (unix seconds). -/
structure WindowEntry where
  member : String
  score : Int
  deriving DecidableEq

/-- The token part of an entry, as the source parses it:
`strconv.Atoi(strings.Split(member, ":")[0])`. -/
def entryTokens (e : WindowEntry) : Option Int :=
  goAtoi (goSplitFirst e.member)

/-- Entries surviving eviction at cutoff `now − 60`: those with
`score > cutoff`. -/
def evictWindow (window : List WindowEntry) (cutoff : Int) : List WindowEntry :=
  window.filter (fun e => cutoff < e.score)

/-- The `currentUsage` accumulator of `CheckCapacity`: sum of the token
parts of the entries whose token part parses (`continue` on parse
failure). -/
def sumTokens (entries : List WindowEntry) : Int :=
  entries.foldl
    (fun acc e =>
      match entryTokens e with
      | none => acc
      | some t => acc + t)
    0

/-- The `oldestTime` accumulator of `CheckCapacity`: minimum score over
the entries whose token part parses, seeded at `now` (the `continue` on
parse failure skips the minimum update as well). -/
def oldestTime (entries : List WindowEntry) (now : Int) : Int :=
  entries.foldl
    (fun acc e =>
      match entryTokens e with
      | none => acc
      | some _ => if e.score < acc then e.score else acc)
    now

/-- Result triple of `CheckCapacity`: `(hasCapacity, retryAfter, err)`.
The source returns a `nil` error on every path, so `err` is an
`Option Unit` that is always `none`. -/
structure CapacityResult where
  hasCapacity : Bool
  retryAfter : Int
  err : Option Unit
  deriving DecidableEq

/-- `RateLimiter.CheckCapacity` for a limiter with limits
`tokensPerMinute` (`max_tpm`) and `maxInputTokens`, window length 60
seconds (fixed by the constructor), at time `now`, with pipeline result
`pipe`. -/
def checkCapacity (maxInputTokens tokensPerMinute : Int) (tokens now : Int)
    (pipe : Except Unit (List WindowEntry)) : CapacityResult :=
  if maxInputTokens > 0 ∧ tokens > maxInputTokens then
    ⟨false, 60, none⟩
  else
    let cutoff := now - 60
    match pipe with
    | .error _ => ⟨true, 0, none⟩
    | .ok window =>
      let entries := evictWindow window cutoff
      let currentUsage := sumTokens entries
      let oldest := oldestTime entries now
      if currentUsage + tokens > tokensPerMinute then
        ⟨false, max 1 (oldest - cutoff), none⟩
      else
        ⟨true, 0, none⟩

/-- The minimal score of a non-empty entry list (the claim's
`oldest_score`). -/
def minScore (e : WindowEntry) (rest : List WindowEntry) : Int :=
  rest.foldl (fun acc x => min acc x.score) e.score

/-! ## Instance configuration and state (`internal/config/models.go`)

Only the fields read or written by the operations embedded here are
modelled; the remaining counters and window maps of `InstanceState`
are never touched by those operations and are omitted.
-/

/-- `InstanceStatus`. -/
inductive InstanceStatus where
  | healthy
  | rateLimited
  | error
  deriving DecidableEq

/-- `InstanceConfig` (the fields the selector and dispatcher consult). -/
structure InstanceConfig where
  name : String
  providerType : String
  priority : Int
  weight : Int
  maxTPM : Int
  maxInputTokens : Int
  supportedModels : List String
  enabled : Bool

/-- `InstanceState` (the fields touched by `recordUsage`, `recordError`
and `updateInstanceHealth`). -/
structure InstanceState where
  name : String
  status : InstanceStatus
  healthStatus : String
  connectionStatus : String
  errorCount : Int
  lastError : Option String
  lastErrorTime : Option Int
  totalErrors500 : Int
  totalErrors503 : Int
  totalOtherErrors : Int
  totalRequests : Int
  successfulRequests : Int
  totalTokensServed : Int
  avgLatencyMs : Option ℚ
  lastUsed : Int

/-- `InstanceState.IsHealthy`: `status == StatusHealthy`. -/
def InstanceState.isHealthy (s : InstanceState) : Bool :=
  s.status = InstanceStatus.healthy

/-- `NewInstanceState`: identity-only constructor (window maps, all
zero counters). -/
def newInstanceState (name : String) (now : Int) : InstanceState where
  name := name
  status := .healthy
  healthStatus := "unknown"
  connectionStatus := "unknown"
  errorCount := 0
  lastError := none
  lastErrorTime := none
  totalErrors500 := 0
  totalErrors503 := 0
  totalOtherErrors := 0
  totalRequests := 0
  successfulRequests := 0
  totalTokensServed := 0
  avgLatencyMs := none
  lastUsed := now

/-! ## State-mutating operations

`recordUsage` and `recordError` live in the proxy handler
(`internal/handlers`); `updateInstanceHealth` in the instance manager.
Each reads the state snapshot, mutates it, and writes it back; the
store round-trip is modelled as a pure state transformer.
-/

/-- The success-accounting step of `ProxyHandler.recordUsage`: bump
counters, set `last_used`, and fold the elapsed latency into the EMA
(`0.9·avg + 0.1·latency`, seeded at the first sample). -/
def recordUsage (s : InstanceState) (tokens : Int) (now : Int) (latency : ℚ) :
    InstanceState :=
  { s with
    totalRequests := s.totalRequests + 1
    successfulRequests := s.successfulRequests + 1
    totalTokensServed := s.totalTokensServed + tokens
    lastUsed := now
    avgLatencyMs :=
      match s.avgLatencyMs with
      | none => some latency
      | some avg => some (9/10 * avg + 1/10 * latency) }

/-- The first mutations of `ProxyHandler.recordError`: bump
`error_count` and `total_requests`. -/
def recordErrorBump (s : InstanceState) : InstanceState :=
  { s with
    errorCount := s.errorCount + 1
    totalRequests := s.totalRequests + 1 }

/-- The status-code bucketing switch of `recordError`:
500 → `total_errors_500`, 503 → `total_errors_503`, default →
`total_other_errors`. -/
def recordErrorBucket (s : InstanceState) (statusCode : Int) : InstanceState :=
  if statusCode = 500 then { s with totalErrors500 := s.totalErrors500 + 1 }
  else if statusCode = 503 then { s with totalErrors503 := s.totalErrors503 + 1 }
  else { s with totalOtherErrors := s.totalOtherErrors + 1 }

/-- The error-accounting step of `ProxyHandler.recordError`: bump the
counters, bucket the status code, recompute
`errorRate = error_count / total_requests × 100` on the updated state,
and demote the instance when `errorRate > 50` and
`total_requests > 10`. -/
def recordError (s : InstanceState) (statusCode : Int) : InstanceState :=
  if ((recordErrorBucket (recordErrorBump s) statusCode).errorCount : ℚ) /
      ((recordErrorBucket (recordErrorBump s) statusCode).totalRequests : ℚ) * 100 > 50 ∧
      (recordErrorBucket (recordErrorBump s) statusCode).totalRequests > 10 then
    { recordErrorBucket (recordErrorBump s) statusCode with
        status := .error, healthStatus := "unhealthy" }
  else recordErrorBucket (recordErrorBump s) statusCode

/-- A health-check result handed to `updateInstanceHealth`
(`latencyMs` is `result.latency.Milliseconds()` as a float). -/
structure HealthCheckResult where
  instanceName : String
  isHealthy : Bool
  latencyMs : ℚ
  errMsg : Option String

/-- `Manager.updateInstanceHealth`: on a healthy result set the healthy
triplet and overwrite `avg_latency_ms` with the probe latency; on an
unhealthy result set the error triplet and record the error message. -/
def updateInstanceHealth (s : InstanceState) (result : HealthCheckResult)
    (now : Int) : InstanceState :=
  if result.isHealthy then
    { s with
      status := .healthy
      healthStatus := "healthy"
      connectionStatus := "connected"
      avgLatencyMs := some result.latencyMs }
  else
    let s := { s with
      status := .error
      healthStatus := "unhealthy"
      connectionStatus := "disconnected" }
    match result.errMsg with
    | some msg => { s with lastError := some msg, lastErrorTime := some now }
    | none => s

/-- The closed-form EMA(0.1) of a sample list, seeded at the first
sample: `none` for no samples, else the fold
`avg ← 0.9·avg + 0.1·sample`. -/
def emaOf (samples : List ℚ) : Option ℚ :=
  samples.foldl
    (fun acc sample =>
      match acc with
      | none => some sample
      | some avg => some (9/10 * avg + 1/10 * sample))
    none

/-! ## The request transformer (`internal/services`, `RequestTransformer`)

Token estimation calls into the tiktoken BPE library; it is modelled as
an oracle `est : endpoint → payload → model → Except String Int`
supplied at the `rt.estimateTokens(endpoint, azurePayload, modelName)`
call boundary.  The `deploymentName` argument of the Go function is
unused by its body and omitted.
-/

/-- `TransformResult`. -/
structure TransformResult where
  originalModel : String
  payload : Payload
  requiredTokens : Int
  endpoint : String
  method : String

/-- `RequestTransformer.TransformOpenAIToAzure`: extract the model
(required non-empty string), copy all fields but `model`, estimate
tokens, and apply the `max_tokens` clamp for the Azure S0 tier. -/
def transformOpenAIToAzure (est : String → Payload → String → Except String Int)
    (endpoint : String) (payload : Payload) : Except String TransformResult :=
  match lookupVal payload "model" with
  | some (.str modelName) =>
    if modelName = "" then .error "model name is required"
    else
      let azurePayload := removeKey payload "model"
      match est endpoint azurePayload modelName with
      | .error e => .error ("failed to estimate tokens: " ++ e)
      | .ok requiredTokens =>
        let azurePayload :=
          match lookupVal azurePayload "max_tokens" with
          | some (.num maxTokensFloat) =>
            let maxTokensInt := goIntOfFloat maxTokensFloat
            if maxTokensInt > 5000 ∧ maxTokensInt > requiredTokens + 5000 ∧
                goContains modelName "2024-05-13" = false then
              setKey azurePayload "max_tokens" (.int (requiredTokens + 5000))
            else azurePayload
          | _ => azurePayload
        .ok ⟨goToLower modelName, azurePayload, requiredTokens, endpoint, "POST"⟩
  | _ => .error "model name is required"

/-- `RequestTransformer.TransformAzureToOpenAI`: clone the response and
overwrite `model` with the retained original (the `choices` loop in the
source rewrites each element to itself and is the identity).  The Go
function's error result is always `nil`. -/
def transformAzureToOpenAI (azureResponse : Payload) (originalModel : String) :
    Payload :=
  setKey azureResponse "model" (.str originalModel)

/-- `RequestTransformer.CleanRequestMetadata`: drop fields with the
internal-metadata name prefix. -/
def cleanRequestMetadata (payload : Payload) : Payload :=
  payload.filter (fun kv => goStartsWith kv.1 "_internal_" = false)

/-! ## The instance selector (`internal/instance/selector.go`)

The state store and the rate limiter are oracle functions
(`getState`, `checkRL`); `checkRL name tokens` is the pair returned by
`Manager.CheckRateLimit` (`hasCapacity`, error).  The random target of
the weighted strategy (`rand.Intn(totalWeight)`) is an explicit
parameter `rngTarget`.

The ranking helpers sort with Go's `sort.Slice` under a strict-order
comparator and return element 0.  `sort.Slice` is documented as *not*
stable, so which element of several comparator-equal ones ends up at
index 0 is implementation-defined (Go happens to run a stable insertion
sort on ranges shorter than 12 and reorders equal elements on longer
ones).  The executable helpers below fix one admissible tie order — the
first listed element attaining the minimal comparator value, which is
exactly Go's behaviour for slices shorter than 12 — and only
consequences that hold under *every* tie order are asserted of the
source for general lists; `sortSliceByPriorityPost` states the
postcondition `sort.Slice` actually guarantees, against which those
consequences are proved.
-/

/-- `instanceWithState`. -/
structure InstanceWithState where
  config : InstanceConfig
  state : InstanceState

/-- Case-insensitive exact model-support check of the capability
filter. -/
def modelSupported (cfg : InstanceConfig) (model : String) : Bool :=
  cfg.supportedModels.any (fun sm => goToLower sm = goToLower model)

/-- Capability pre-filter of `SelectInstanceForRequest`: drop disabled
instances, provider mismatches, unsupported models, and instances with
`tokens > max_tpm`. -/
def preFilterConfigs (configs : List InstanceConfig) (model : String)
    (tokens : Int) (providerType : String) : List InstanceConfig :=
  configs.filter (fun cfg =>
    cfg.enabled = true ∧
    (providerType = "" ∨ cfg.providerType = providerType) ∧
    modelSupported cfg model = true ∧
    ¬ tokens > cfg.maxTPM)

/-- Health-and-admission filter of `SelectInstanceForRequest`: skip
instances whose state read fails, whose state is not healthy, or for
which the rate-limit check errors or denies. -/
def eligibleList (getState : String → Except Unit InstanceState)
    (checkRL : String → Int → Bool × Option Unit)
    (filteredConfigs : List InstanceConfig) (tokens : Int) :
    List InstanceWithState :=
  filteredConfigs.filterMap (fun cfg =>
    match getState cfg.name with
    | .error _ => none
    | .ok state =>
      if state.isHealthy = false then none
      else
        let rl := checkRL cfg.name tokens
        if rl.2.isSome ∨ rl.1 = false then none
        else some ⟨cfg, state⟩)

/-- The first element of a non-empty list attaining the minimal
priority: one admissible outcome of `selectByFailover`'s unstable sort
by `Priority <` followed by `instances[0]` (exact for slices shorter
than 12; on longer all-tied slices Go may surface a different
equal-priority element). -/
def firstMinByPriority (x : InstanceWithState) (xs : List InstanceWithState) :
    InstanceWithState :=
  xs.foldl (fun best c => if c.config.priority < best.config.priority then c else best) x

/-- `selectByFailover` ("" on an empty list, which callers exclude).
The comparator consults only `Priority`; the tie order fixed here is
one admissible `sort.Slice` outcome (see the section comment), and only
tie-insensitive consequences are asserted of the source. -/
def selectByFailover (instances : List InstanceWithState) : String :=
  match instances with
  | [] => ""
  | x :: xs => (firstMinByPriority x xs).config.name

/-- The postcondition Go's `sort.Slice` guarantees for
`selectByFailover`'s comparator `Priority <`: the sorted slice is a
permutation of the input in which no later element has strictly
smaller priority than an earlier one.  Stability is *not* guaranteed,
so any `sorted` satisfying this may be produced. -/
def sortSliceByPriorityPost (instances sorted : List InstanceWithState) : Prop :=
  sorted.Perm instances ∧
  sorted.Pairwise (fun a b => ¬ b.config.priority < a.config.priority)

/-- The accumulation loop of `selectByWeight`: walk the list adding
weights, returning the first name whose running sum strictly exceeds
the target; `none` when the loop falls through. -/
def weightLoop (target : Int) : Int → List InstanceWithState → Option String
  | _, [] => none
  | current, x :: xs =>
    if current + x.config.weight > target then some x.config.name
    else weightLoop target (current + x.config.weight) xs

/-- `selectByWeight` at random target `target`
(`rand.Intn(totalWeight)`); falls back to the first instance when the
loop finds none ("" on an empty list, which callers exclude). -/
def selectByWeight (instances : List InstanceWithState) (target : Int) : String :=
  match weightLoop target 0 instances with
  | some name => name
  | none =>
    match instances with
    | [] => ""
    | x :: _ => x.config.name

/-- The `totalWeight` accumulator of `selectByWeight`. -/
def totalWeight (instances : List InstanceWithState) : Int :=
  instances.foldl (fun acc x => acc + x.config.weight) 0

/-- The sum of all weights of a list, as a map-sum. -/
def wsum (instances : List InstanceWithState) : Int :=
  (instances.map (fun x => x.config.weight)).sum

/-- The sum of the weights of the first `i` instances. -/
def wsumTake (instances : List InstanceWithState) (i : Nat) : Int :=
  wsum (instances.take i)

/-- The first element of a non-empty list attaining the minimal
`last_used`: `selectByRoundRobin`'s sort by `LastUsed.Before` followed
by `instances[0]`. -/
def firstMinByLastUsed (x : InstanceWithState) (xs : List InstanceWithState) :
    InstanceWithState :=
  xs.foldl (fun best c => if c.state.lastUsed < best.state.lastUsed then c else best) x

/-- `selectByRoundRobin` ("" on an empty list, which callers exclude). -/
def selectByRoundRobin (instances : List InstanceWithState) : String :=
  match instances with
  | [] => ""
  | x :: xs => (firstMinByLastUsed x xs).config.name

/-- `InstanceSelector.SelectInstanceForRequest`: capability pre-filter,
health/admission filter, then the routing-strategy dispatch (unknown
strategies fall back to failover). -/
def selectInstanceForRequest (getState : String → Except Unit InstanceState)
    (checkRL : String → Int → Bool × Option Unit)
    (routingStrategy : String) (rngTarget : Int)
    (configs : List InstanceConfig) (model : String) (tokens : Int)
    (providerType : String) : Except String String :=
  if (preFilterConfigs configs model tokens providerType).isEmpty then
    .error ("no suitable instances found for model " ++ model)
  else if (eligibleList getState checkRL
      (preFilterConfigs configs model tokens providerType) tokens).isEmpty then
    .error ("no healthy instances with capacity found for model " ++ model)
  else if routingStrategy = "failover" then
    .ok (selectByFailover (eligibleList getState checkRL
      (preFilterConfigs configs model tokens providerType) tokens))
  else if routingStrategy = "weighted" then
    .ok (selectByWeight (eligibleList getState checkRL
      (preFilterConfigs configs model tokens providerType) tokens) rngTarget)
  else if routingStrategy = "round_robin" then
    .ok (selectByRoundRobin (eligibleList getState checkRL
      (preFilterConfigs configs model tokens providerType) tokens))
  else
    .ok (selectByFailover (eligibleList getState checkRL
      (preFilterConfigs configs model tokens providerType) tokens))

/-! ## The streaming relay (`ProxyHandler.streamResponse`)

The scanner lines of the upstream SSE body, with the
`json.Unmarshal` outcome made explicit: a `data:` line either parses as
a JSON object (`dataJson`), is the literal `[DONE]` terminator
(`dataDone`), or fails to parse (`dataRaw`, passed through verbatim);
any other line passes through unchanged.  `TransformAzureToOpenAI`
never returns an error and re-marshalling an unmarshalled map never
fails, so every parsed chunk is emitted transformed.
-/

/-- A scanned upstream SSE line. -/
inductive StreamLine where
  | dataJson (chunk : Payload)
  | dataDone
  | dataRaw (line : String)
  | other (line : String)

/-- A unit written to the client by the relay loop. -/
inductive StreamOut where
  | chunk (chunk : Payload)
  | done
  | raw (line : String)
  | passthrough (line : String)

/-- The relay loop of `streamResponse`: transform and re-emit each
parsed `data:` chunk, emit `[DONE]` and stop, pass everything else
through. -/
def streamRelay (originalModel : String) : List StreamLine → List StreamOut
  | [] => []
  | .dataJson chunk :: rest =>
    .chunk (transformAzureToOpenAI chunk originalModel) :: streamRelay originalModel rest
  | .dataDone :: _ => [.done]
  | .dataRaw line :: rest => .raw line :: streamRelay originalModel rest
  | .other line :: rest => .passthrough line :: streamRelay originalModel rest

/-! ## The dispatcher (`ProxyHandler.handleProxyRequest`)

The collaborators are an oracle record, one field per call boundary the
Go code crosses: body binding, request validation, instance selection,
config lookup, token estimation (threaded into the embedded
transformer), the manager's rate-limit check, and the Azure-service
registry.  The model follows the source to the point where the request
is handed to the Azure service (`dispatched`); the upstream round trip
and response relay are modelled separately (`streamRelay`,
`transformAzureToOpenAI`).  A trace of selector and rate-limit calls is
returned alongside the outcome.
-/

/-- Oracle results for the dispatcher's collaborators. -/
structure DispatchOracle where
  now : Int
  bindJSON : Except String Payload
  validateErr : String → Payload → Option String
  selectInstance : String → Int → String → Except String String
  getInstanceConfig : String → Except String InstanceConfig
  est : String → Payload → String → Except String Int
  checkRateLimit : String → Int → Bool × Option Unit
  azureServiceExists : String → Bool

/-- Calls the dispatcher makes into the selection and admission
machinery. -/
inductive DispatchEvent where
  | selectInstance (model : String) (tokens : Int) (providerType : String)
  | checkRateLimit (instanceName : String) (tokens : Int)
  deriving DecidableEq

/-- Outcome of the dispatcher front half: an error response, or a
request dispatched to the chosen instance. -/
inductive DispatchOutcome where
  | errorResponse (e : ProxyError)
  | dispatched (instanceName : String) (result : TransformResult)
      (isStreaming : Bool) (cleanPayload : Payload)

/-- The `payload["model"].(string)` extraction with discarded `ok`
flag: "" when absent or not a string. -/
def modelNameOf (payload : Payload) : String :=
  match lookupVal payload "model" with
  | some (.str s) => s
  | _ => ""

/-- The `payload["stream"].(bool)` check: streaming iff `stream` is
present as the boolean `true`. -/
def isStreamingOf (payload : Payload) : Bool :=
  match lookupVal payload "stream" with
  | some (.bool true) => true
  | _ => false

/-- `ProxyHandler.handleProxyRequest` up to the hand-off to the Azure
service, with its call trace. -/
def handleProxyRequest (o : DispatchOracle) (endpoint : String) :
    DispatchOutcome × List DispatchEvent :=
  match o.bindJSON with
  | .error e =>
    (.errorResponse (newClientError "invalid JSON payload" 400 [("error", .str e)] o.now), [])
  | .ok payload =>
    match o.validateErr endpoint payload with
    | some msg =>
      (.errorResponse (newClientError msg 400 [("endpoint", .str endpoint)] o.now), [])
    | none =>
      match o.selectInstance (modelNameOf payload) 0 "azure" with
      | .error e =>
        (.errorResponse (newInstanceError "no suitable instance available"
          [("model", .str (modelNameOf payload)), ("endpoint", .str endpoint),
           ("error", .str e)] o.now),
         [.selectInstance (modelNameOf payload) 0 "azure"])
      | .ok selectedInstance =>
        match o.getInstanceConfig selectedInstance with
        | .error e =>
          (.errorResponse (newInternalError "failed to get instance config"
            [("instance", .str selectedInstance), ("error", .str e)] o.now),
           [.selectInstance (modelNameOf payload) 0 "azure"])
        | .ok _instanceConfig =>
          match transformOpenAIToAzure o.est endpoint payload with
          | .error e =>
            (.errorResponse (newInternalError "request transformation failed"
              [("error", .str e), ("model", .str (modelNameOf payload))] o.now),
             [.selectInstance (modelNameOf payload) 0 "azure"])
          | .ok transformResult =>
            if (o.checkRateLimit selectedInstance transformResult.requiredTokens).1 = false then
              (.errorResponse (newUpstreamError "rate limit exceeded" 429
                [("instance", .str selectedInstance),
                 ("tokens", .int transformResult.requiredTokens)] o.now),
               [.selectInstance (modelNameOf payload) 0 "azure",
                .checkRateLimit selectedInstance transformResult.requiredTokens])
            else
              if o.azureServiceExists selectedInstance = false then
                (.errorResponse (newInternalError "Azure service not found for instance"
                  [("instance", .str selectedInstance)] o.now),
                 [.selectInstance (modelNameOf payload) 0 "azure",
                  .checkRateLimit selectedInstance transformResult.requiredTokens])
              else
                (.dispatched selectedInstance transformResult (isStreamingOf payload)
                  (cleanRequestMetadata transformResult.payload),
                 [.selectInstance (modelNameOf payload) 0 "azure",
                  .checkRateLimit selectedInstance transformResult.requiredTokens])

/-! ## Concrete fixtures

Concrete collaborator records and configurations used to instantiate
the theorems below at closed inputs.
-/

/-- A collaborator record for a request whose rate-limit check denies:
a valid chat payload, a selected instance `azure-1`, an estimate of 42
tokens, and a denying `CheckRateLimit`. -/
def oracleRateLimited : DispatchOracle where
  now := 1700000000
  bindJSON := .ok [("model", .str "gpt-4"), ("messages", .arr [])]
  validateErr := fun _ _ => none
  selectInstance := fun _ _ _ => .ok "azure-1"
  getInstanceConfig := fun _ => .ok ⟨"azure-1", "azure", 1, 1, 60000, 0, ["gpt-4"], true⟩
  est := fun _ _ _ => .ok 42
  checkRateLimit := fun _ _ => (false, none)
  azureServiceExists := fun _ => true

/-- A concrete enabled Azure instance configuration. -/
def cfgAzureOne : InstanceConfig :=
  ⟨"azure-1", "azure", 1, 1, 60000, 0, ["gpt-4"], true⟩

/-- A state with 10 errors out of 10 requests, one error short of the
demotion threshold. -/
def stateManyErrors : InstanceState :=
  { newInstanceState "azure-1" 0 with errorCount := 10, totalRequests := 10 }

/-- A state already demoted to `error`. -/
def stateUnhealthy : InstanceState :=
  { newInstanceState "azure-1" 0 with status := .error, healthStatus := "unhealthy" }

/-- An instance named `b`, priority 1, listed first. -/
def iwsTieB : InstanceWithState :=
  ⟨⟨"b", "azure", 1, 1, 60000, 0, ["gpt-4"], true⟩, newInstanceState "b" 0⟩

/-- An instance named `a`, priority 1, listed second. -/
def iwsTieA : InstanceWithState :=
  ⟨⟨"a", "azure", 1, 1, 60000, 0, ["gpt-4"], true⟩, newInstanceState "a" 0⟩

/-- Weighted instances with weights 1, 2 and 7 (the S4 scenario). -/
def iwsW1 : InstanceWithState :=
  ⟨⟨"w1", "azure", 1, 1, 60000, 0, ["gpt-4"], true⟩, newInstanceState "w1" 0⟩

/-- Weight-2 instance of the S4 scenario. -/
def iwsW2 : InstanceWithState :=
  ⟨⟨"w2", "azure", 1, 2, 60000, 0, ["gpt-4"], true⟩, newInstanceState "w2" 0⟩

/-- Weight-7 instance of the S4 scenario. -/
def iwsW7 : InstanceWithState :=
  ⟨⟨"w7", "azure", 1, 7, 60000, 0, ["gpt-4"], true⟩, newInstanceState "w7" 0⟩

/-- The S4 eligibility list. -/
def wList : List InstanceWithState := [iwsW1, iwsW2, iwsW7]

/-! ## Helper lemmas -/

/-- A left fold of `min` never exceeds its seed. -/
lemma foldl_min_le_seed (l : List Int) (a : Int) : l.foldl min a ≤ a := by
  induction l generalizing a with
  | nil => exact le_refl a
  | cons x xs ih => exact le_trans (ih (min a x)) (min_le_left a x)

/-- Pulling the seed out of a left fold of `min`. -/
lemma foldl_min_seed_comm (l : List Int) (a b : Int) :
    l.foldl min (min a b) = min a (l.foldl min b) := by
  induction l generalizing b with
  | nil => rfl
  | cons x xs ih =>
    simp only [List.foldl_cons]
    rw [min_assoc, ih]

/-- When every entry's token part parses, `oldestTime` is the fold of
`min` over the scores. -/
lemma oldestTime_eq_foldl (l : List WindowEntry) (seed : Int)
    (hp : ∀ x ∈ l, (entryTokens x).isSome) :
    oldestTime l seed = (l.map (fun e => e.score)).foldl min seed := by
  induction l generalizing seed with
  | nil => rfl
  | cons x xs ih =>
    have hx : (entryTokens x).isSome := hp x (List.mem_cons_self x xs)
    have hxs : ∀ y ∈ xs, (entryTokens y).isSome := fun y hy => hp y (List.mem_cons_of_mem x hy)
    obtain ⟨t, ht⟩ := Option.isSome_iff_exists.mp hx
    simp only [oldestTime, List.foldl_cons, List.map_cons]
    rw [ht]
    have hmin : (if x.score < seed then x.score else seed) = min seed x.score := by
      by_cases h : x.score < seed <;> simp [h, min_def] <;> omega
    rw [hmin]
    exact ih (min seed x.score) hxs

/-- `minScore` as a fold of `min` over scores. -/
lemma minScore_eq_foldl (e : WindowEntry) (rest : List WindowEntry) :
    minScore e rest = (rest.map (fun x => x.score)).foldl min e.score := by
  simp [minScore, List.foldl_map]

/-- On a non-empty window of parseable entries whose scores do not
exceed `now`, the source's `oldestTime` accumulator computes the
minimal score. -/
lemma oldestTime_eq_minScore (e : WindowEntry) (rest : List WindowEntry) (now : Int)
    (hp : ∀ x ∈ e :: rest, (entryTokens x).isSome)
    (hs : ∀ x ∈ e :: rest, x.score ≤ now) :
    oldestTime (e :: rest) now = minScore e rest := by
  rw [oldestTime_eq_foldl _ _ hp]
  simp only [List.map_cons, List.foldl_cons]
  rw [foldl_min_seed_comm, ← minScore_eq_foldl]
  have h2 : minScore e rest ≤ e.score := by
    rw [minScore_eq_foldl]; exact foldl_min_le_seed _ _
  have h3 : e.score ≤ now := hs e (List.mem_cons_self e rest)
  exact min_eq_right (le_trans h2 h3)

/-- Removing one key leaves lookups of other keys unchanged. -/
lemma lookupVal_removeKey (p : Payload) (k k' : String) (h : k' ≠ k) :
    lookupVal (removeKey p k) k' = lookupVal p k' := by
  induction p with
  | nil => rfl
  | cons kv rest ih =>
    by_cases hk : kv.1 = k
    · have hk' : ¬ kv.1 = k' := by rw [hk]; exact fun he => h he.symm
      have hrw : removeKey (kv :: rest) k = removeKey rest k := by
        simp [removeKey, hk]
      rw [hrw, ih]
      simp [lookupVal, hk']
    · have hrw : removeKey (kv :: rest) k = kv :: removeKey rest k := by
        simp [removeKey, hk]
      rw [hrw]
      by_cases hk2 : kv.1 = k'
      · simp [lookupVal, hk2]
      · simp only [lookupVal, hk2, if_false]
        exact ih

/-- After a map assignment, looking up the assigned key yields the
assigned value. -/
lemma lookupVal_setKey_self (p : Payload) (k : String) (v : JsonVal) :
    lookupVal (setKey p k v) k = some v := by
  unfold setKey
  by_cases hany : p.any (fun kv => kv.1 = k) = true
  · rw [if_pos hany]
    induction p with
    | nil => simp at hany
    | cons kv rest ih =>
      by_cases hk : kv.1 = k
      · simp [lookupVal, hk]
      · simp only [List.any_cons, hk] at hany
        simp only [List.map_cons, if_neg hk, lookupVal, hk, if_false]
        simp at hany
        exact ih (by simpa using hany)
  · rw [if_neg hany]
    induction p with
    | nil => simp [lookupVal]
    | cons kv rest ih =>
      simp only [List.any_cons, Bool.or_eq_true, not_or] at hany
      have hk : kv.1 ≠ k := by
        intro he
        exact hany.1 (by simpa using he)
      simp only [List.cons_append, lookupVal, hk, if_false]
      exact ih (by simpa using hany.2)

/-- A left fold of a binary choice function stays within the seeded
list. -/
lemma foldl_choice_mem {α : Type} (f : α → α → α)
    (hf : ∀ a b, f a b = a ∨ f a b = b) (x : α) (xs : List α) :
    xs.foldl f x ∈ x :: xs := by
  induction xs generalizing x with
  | nil => simp
  | cons y ys ih =>
    simp only [List.foldl_cons]
    rcases List.mem_cons.mp (ih (f x y)) with h | h
    · rcases hf x y with h₂ | h₂ <;> rw [h, h₂]
      · exact List.mem_cons_self _ _
      · exact List.mem_cons_of_mem _ (List.mem_cons_self _ _)
    · exact List.mem_cons_of_mem _ (List.mem_cons_of_mem _ h)

/-- The failover ranking returns the name of a member of the list. -/
lemma selectByFailover_mem (l : List InstanceWithState) (hne : l ≠ []) :
    ∃ y ∈ l, y.config.name = selectByFailover l := by
  match l, hne with
  | x :: xs, _ =>
    refine ⟨firstMinByPriority x xs, ?_, rfl⟩
    exact foldl_choice_mem _
      (fun a b => by
        by_cases hb : b.config.priority < a.config.priority
        · exact Or.inr (if_pos hb)
        · exact Or.inl (if_neg hb)) x xs

/-- The round-robin ranking returns the name of a member of the list. -/
lemma selectByRoundRobin_mem (l : List InstanceWithState) (hne : l ≠ []) :
    ∃ y ∈ l, y.config.name = selectByRoundRobin l := by
  match l, hne with
  | x :: xs, _ =>
    refine ⟨firstMinByLastUsed x xs, ?_, rfl⟩
    exact foldl_choice_mem _
      (fun a b => by
        by_cases hb : b.state.lastUsed < a.state.lastUsed
        · exact Or.inr (if_pos hb)
        · exact Or.inl (if_neg hb)) x xs

/-- A successful weight walk returns the name of a member of the
list. -/
lemma weightLoop_mem (target : Int) (cur : Int) (l : List InstanceWithState)
    (name : String) (h : weightLoop target cur l = some name) :
    ∃ y ∈ l, y.config.name = name := by
  induction l generalizing cur with
  | nil => simp [weightLoop] at h
  | cons x xs ih =>
    rw [weightLoop] at h
    by_cases hc : cur + x.config.weight > target
    · rw [if_pos hc] at h
      injection h with h
      exact ⟨x, List.mem_cons_self _ _, h⟩
    · rw [if_neg hc] at h
      obtain ⟨y, hy, hn⟩ := ih _ h
      exact ⟨y, List.mem_cons_of_mem _ hy, hn⟩

/-- The weighted ranking returns the name of a member of the list. -/
lemma selectByWeight_mem (l : List InstanceWithState) (hne : l ≠ []) (target : Int) :
    ∃ y ∈ l, y.config.name = selectByWeight l target := by
  unfold selectByWeight
  rcases hw : weightLoop target 0 l with _ | name
  · match l, hne with
    | x :: xs, _ => exact ⟨x, List.mem_cons_self _ _, rfl⟩
  · exact weightLoop_mem _ _ _ _ hw

/-- Every member of the eligibility list passed the state read, the
health check, and the admission check. -/
lemma eligibleList_mem (getState : String → Except Unit InstanceState)
    (checkRL : String → Int → Bool × Option Unit)
    (cfgs : List InstanceConfig) (tokens : Int) (y : InstanceWithState)
    (h : y ∈ eligibleList getState checkRL cfgs tokens) :
    getState y.config.name = .ok y.state ∧ y.state.isHealthy = true ∧
    (checkRL y.config.name tokens).2 = none ∧ (checkRL y.config.name tokens).1 = true := by
  simp only [eligibleList, List.mem_filterMap] at h
  obtain ⟨cfg, hcfg, hy⟩ := h
  split at hy
  · exact absurd hy (by simp)
  next state hstate =>
    split at hy
    · exact absurd hy (by simp)
    next hhealthy =>
      split at hy
      · exact absurd hy (by simp)
      next hrl =>
        injection hy with hy
        subst hy
        push_neg at hrl
        refine ⟨hstate, ?_, ?_, ?_⟩
        · simpa using hhealthy
        · exact Option.not_isSome_iff_eq_none.mp (by simpa using hrl.1)
        · simpa using hrl.2

/-- A successful selection returns the name of a member of the
eligibility list. -/
lemma selectInstanceForRequest_mem (getState : String → Except Unit InstanceState)
    (checkRL : String → Int → Bool × Option Unit)
    (routingStrategy : String) (rngTarget : Int) (configs : List InstanceConfig)
    (model : String) (tokens : Int) (providerType : String) (name : String)
    (h : selectInstanceForRequest getState checkRL routingStrategy rngTarget configs
      model tokens providerType = .ok name) :
    ∃ y ∈ eligibleList getState checkRL
        (preFilterConfigs configs model tokens providerType) tokens,
      y.config.name = name := by
  unfold selectInstanceForRequest at h
  split at h
  · exact absurd h (by simp)
  next hfil =>
    split at h
    · exact absurd h (by simp)
    next helig =>
      have hne : eligibleList getState checkRL
          (preFilterConfigs configs model tokens providerType) tokens ≠ [] := by
        intro hnil
        rw [hnil] at helig
        exact helig rfl
      split at h
      · obtain ⟨y, hy, hn⟩ := selectByFailover_mem _ hne
        exact ⟨y, hy, hn.trans (by injection h)⟩
      · split at h
        · obtain ⟨y, hy, hn⟩ := selectByWeight_mem _ hne rngTarget
          exact ⟨y, hy, hn.trans (by injection h)⟩
        · split at h
          · obtain ⟨y, hy, hn⟩ := selectByRoundRobin_mem _ hne
            exact ⟨y, hy, hn.trans (by injection h)⟩
          · obtain ⟨y, hy, hn⟩ := selectByFailover_mem _ hne
            exact ⟨y, hy, hn.trans (by injection h)⟩

/-- The bucketing switch never touches `avg_latency_ms`. -/
lemma recordErrorBucket_avgLatencyMs (s : InstanceState) (statusCode : Int) :
    (recordErrorBucket s statusCode).avgLatencyMs = s.avgLatencyMs := by
  unfold recordErrorBucket
  split
  · rfl
  · split <;> rfl

/-- The first-minimum fold splits its input around the chosen element:
everything before it has strictly larger priority, and nothing has
smaller priority. -/
lemma firstMinByPriority_spec (x : InstanceWithState) (xs : List InstanceWithState) :
    ∃ pre post, x :: xs = pre ++ firstMinByPriority x xs :: post ∧
      (∀ y ∈ x :: xs, (firstMinByPriority x xs).config.priority ≤ y.config.priority) ∧
      (∀ y ∈ pre, (firstMinByPriority x xs).config.priority < y.config.priority) := by
  induction xs generalizing x with
  | nil =>
    refine ⟨[], [], rfl, ?_, by simp⟩
    intro y hy
    rcases List.mem_singleton.mp hy with rfl
    exact le_refl _
  | cons y ys ih =>
    have hstep : firstMinByPriority x (y :: ys) =
        firstMinByPriority (if y.config.priority < x.config.priority then y else x) ys := rfl
    by_cases hyx : y.config.priority < x.config.priority
    · obtain ⟨pre, post, heq, hmin, hpre⟩ := ih y
      rw [if_pos hyx] at hstep
      refine ⟨x :: pre, post, ?_, ?_, ?_⟩
      · rw [hstep, show x :: y :: ys = x :: (pre ++ firstMinByPriority y ys :: post) from
          by rw [← heq]]
        rfl
      · intro z hz
        rw [hstep]
        rcases List.mem_cons.mp hz with rfl | hz'
        · exact le_of_lt (lt_of_le_of_lt (hmin y (List.mem_cons_self _ _)) hyx)
        · exact hmin z hz'
      · intro z hz
        rw [hstep]
        rcases List.mem_cons.mp hz with rfl | hz'
        · exact lt_of_le_of_lt (hmin y (List.mem_cons_self _ _)) hyx
        · exact hpre z hz'
    · obtain ⟨pre, post, heq, hmin, hpre⟩ := ih x
      rw [if_neg hyx] at hstep
      have hxy : x.config.priority ≤ y.config.priority := le_of_not_lt hyx
      cases pre with
      | nil =>
        have hm : firstMinByPriority x ys = x := by
          have := heq
          simp only [List.nil_append] at this
          injection this with h₁ h₂
          exact h₁.symm
        refine ⟨[], y :: ys, ?_, ?_, by simp⟩
        · rw [hstep, hm]
          rfl
        · intro z hz
          rw [hstep, hm]
          rcases List.mem_cons.mp hz with rfl | hz'
          · exact le_refl _
          rcases List.mem_cons.mp hz' with rfl | hz''
          · exact hxy
          · have := hmin z (List.mem_cons_of_mem _ hz'')
            rw [hm] at this
            exact this
      | cons p ps =>
        have heq' : x = p ∧ ys = ps ++ firstMinByPriority x ys :: post := by
          simp only [List.cons_append] at heq
          exact ⟨by injection heq, by injection heq⟩
        have hminx : (firstMinByPriority x ys).config.priority ≤ x.config.priority :=
          hmin x (List.mem_cons_self _ _)
        have hprex : (firstMinByPriority x ys).config.priority < x.config.priority := by
          have := hpre p (List.mem_cons_self _ _)
          rw [← heq'.1] at this
          exact this
        refine ⟨x :: y :: ps, post, ?_, ?_, ?_⟩
        · rw [hstep, show x :: y :: ys =
            x :: y :: (ps ++ firstMinByPriority x ys :: post) from by rw [← heq'.2]]
          rfl
        · intro z hz
          rw [hstep]
          rcases List.mem_cons.mp hz with rfl | hz'
          · exact hminx
          rcases List.mem_cons.mp hz' with rfl | hz''
          · exact le_trans hminx hxy
          · exact hmin z (List.mem_cons_of_mem _ hz'')
        · intro z hz
          rw [hstep]
          rcases List.mem_cons.mp hz with rfl | hz'
          · exact hprex
          rcases List.mem_cons.mp hz' with rfl | hz''
          · exact lt_of_lt_of_le hprex hxy
          · exact hpre z (List.mem_cons_of_mem _ hz'')

/-- Weight sum of a cons cell. -/
lemma wsum_cons (x : InstanceWithState) (xs : List InstanceWithState) :
    wsum (x :: xs) = x.config.weight + wsum xs := by
  simp [wsum]

/-- The Go `totalWeight` accumulator computes the weight sum, from any
seed. -/
lemma foldl_weight_eq (l : List InstanceWithState) (a : Int) :
    l.foldl (fun acc x => acc + x.config.weight) a = a + wsum l := by
  induction l generalizing a with
  | nil => simp [wsum]
  | cons x xs ih =>
    rw [List.foldl_cons, ih, wsum_cons]
    ring

/-- Taking one more element adds one weight. -/
lemma wsumTake_cons_succ (x : InstanceWithState) (xs : List InstanceWithState) (i : Nat) :
    wsumTake (x :: xs) (i + 1) = x.config.weight + wsumTake xs i := by
  simp [wsumTake, wsum]

/-- The prefix-sum step at a valid index. -/
lemma wsumTake_succ_get (l : List InstanceWithState) (i : Nat) (h : i < l.length) :
    wsumTake l (i + 1) = wsumTake l i + (l.get ⟨i, h⟩).config.weight := by
  simp only [wsumTake, List.take_succ, List.getElem?_eq_getElem h, Option.toList_some,
    wsum, List.map_append, List.sum_append, List.map_cons, List.map_nil, List.sum_cons,
    List.sum_nil, List.get_eq_getElem]
  ring

/-- Prefix sums past the end saturate. -/
lemma wsumTake_of_le (l : List InstanceWithState) (i : Nat) (h : l.length ≤ i) :
    wsumTake l i = wsum l := by
  simp [wsumTake, List.take_of_length_le h]

/-- Prefix sums of non-negative weights are monotone. -/
lemma wsumTake_mono (l : List InstanceWithState)
    (hw : ∀ x ∈ l, 0 ≤ x.config.weight) (i j : Nat) (hij : i ≤ j) :
    wsumTake l i ≤ wsumTake l j := by
  induction j with
  | zero =>
    rw [Nat.le_zero.mp hij]
  | succ j ih =>
    rcases Nat.lt_or_ge i (j + 1) with hlt | hge
    · have h₁ := ih (Nat.lt_succ_iff.mp hlt)
      rcases Nat.lt_or_ge j l.length with hj | hj
      · have h₂ := wsumTake_succ_get l j hj
        have h₃ : 0 ≤ (l.get ⟨j, hj⟩).config.weight := hw _ (List.get_mem l j hj)
        omega
      · rw [wsumTake_of_le l (j + 1) (by omega), ← wsumTake_of_le l j hj]
        exact h₁
    · rw [Nat.le_antisymm hij hge]

/-- Prefix sums of non-negative weights are non-negative. -/
lemma wsumTake_nonneg (l : List InstanceWithState)
    (hw : ∀ x ∈ l, 0 ≤ x.config.weight) (i : Nat) : 0 ≤ wsumTake l i := by
  have := wsumTake_mono l hw 0 i (Nat.zero_le i)
  simpa [wsumTake, wsum] using this

/-- The weight walk of `selectByWeight`: for a target strictly below
the remaining weight mass (shifted by the running sum `base`), the walk
returns the first instance whose running prefix sum strictly exceeds
the target. -/
lemma weightLoop_spec (l : List InstanceWithState) (target : Int)
    (hw : ∀ x ∈ l, 0 ≤ x.config.weight) :
    ∀ base, base ≤ target → target < base + wsum l →
    ∃ i, ∃ h : i < l.length,
      weightLoop target base l = some ((l.get ⟨i, h⟩).config.name) ∧
      base + wsumTake l i ≤ target ∧ target < base + wsumTake l (i + 1) := by
  induction l with
  | nil =>
    intro base hlow hhigh
    rw [wsum] at hhigh
    simp at hhigh
    omega
  | cons x xs ih =>
    intro base hlow hhigh
    by_cases hc : base + x.config.weight > target
    · refine ⟨0, Nat.succ_pos _, ?_, ?_, ?_⟩
      · rw [weightLoop, if_pos hc]
        rfl
      · simpa [wsumTake, wsum] using hlow
      · have h1 : wsumTake (x :: xs) (0 + 1) = x.config.weight := by
          rw [wsumTake_cons_succ]
          simp [wsumTake, wsum]
        rw [h1]
        omega
    · push_neg at hc
      have hw' : ∀ y ∈ xs, 0 ≤ y.config.weight :=
        fun y hy => hw y (List.mem_cons_of_mem _ hy)
      have hhigh' : target < (base + x.config.weight) + wsum xs := by
        rw [wsum_cons] at hhigh
        omega
      obtain ⟨i, hi, hloop, hlo₂, hhi₂⟩ := ih hw' (base + x.config.weight) hc hhigh'
      refine ⟨i + 1, Nat.succ_lt_succ hi, ?_, ?_, ?_⟩
      · rw [weightLoop, if_neg (by omega)]
        exact hloop
      · rw [wsumTake_cons_succ]
        omega
      · rw [wsumTake_cons_succ]
        omega

/-- `selectByWeight` at an in-range target returns the first instance
whose prefix sum strictly exceeds the target. -/
lemma selectByWeight_spec (l : List InstanceWithState)
    (hw : ∀ x ∈ l, 0 ≤ x.config.weight) (target : Int)
    (h0 : 0 ≤ target) (ht : target < wsum l) :
    ∃ i, ∃ h : i < l.length,
      selectByWeight l target = (l.get ⟨i, h⟩).config.name ∧
      wsumTake l i ≤ target ∧ target < wsumTake l (i + 1) := by
  obtain ⟨i, hi, hloop, hlo, hhi⟩ :=
    weightLoop_spec l target hw 0 h0 (by simpa using ht)
  refine ⟨i, hi, ?_, by simpa using hlo, by simpa using hhi⟩
  unfold selectByWeight
  rw [hloop]

/-- A target lies in at most one prefix-sum interval. -/
lemma wsumTake_interval_unique (l : List InstanceWithState)
    (hw : ∀ x ∈ l, 0 ≤ x.config.weight) (i j : Nat) (t : Int)
    (h₁ : wsumTake l i ≤ t) (h₂ : t < wsumTake l (i + 1))
    (h₃ : wsumTake l j ≤ t) (h₄ : t < wsumTake l (j + 1)) : i = j := by
  by_contra hne
  rcases Nat.lt_or_ge i j with hlt | hge
  · have := wsumTake_mono l hw (i + 1) j hlt
    omega
  · have hgt : j < i := by omega
    have := wsumTake_mono l hw (j + 1) i hgt
    omega

/-- A successful transform retains the lowercased client model as
`original_model`. -/
lemma transform_originalModel (est : String → Payload → String → Except String Int)
    (endpoint : String) (payload : Payload) (m : String) (tr : TransformResult)
    (hm : lookupVal payload "model" = some (.str m))
    (htr : transformOpenAIToAzure est endpoint payload = .ok tr) :
    tr.originalModel = goToLower m := by
  simp only [transformOpenAIToAzure, hm] at htr
  by_cases hne : m = ""
  · rw [if_pos hne] at htr
    exact absurd htr (by simp)
  · rw [if_neg hne] at htr
    rcases hest : est endpoint (removeKey payload "model") m with e | rt
    · rw [hest] at htr
      exact absurd htr (by simp)
    · rw [hest] at htr
      simp only [Except.ok.injEq] at htr
      rw [← htr]

/-! ## Claim theorems -/

/-- C1: `CheckCapacity` with token count `tokens`: if
`max_input_tokens > 0` and `tokens > max_input_tokens` it denies with
`retry_after = 60` regardless of window state; otherwise, after
evicting entries with score ≤ now − 60 and summing the token parts of
the remaining entries to `current`, it admits with `retry_after = 0`
when `current + tokens ≤ max_tpm` and denies with
`retry_after = max(1, oldest_score − (now − 60))` otherwise (stated for
a non-empty post-eviction window of well-formed entries with scores
≤ now, where `oldest_score` is defined); and every denial carries
`retry_after ≥ 1`. -/
theorem checkCapacity_correct (maxInput maxTPM tokens now : Int)
    (window : List WindowEntry) :
    (maxInput > 0 ∧ tokens > maxInput →
      ∀ pipe, checkCapacity maxInput maxTPM tokens now pipe = ⟨false, 60, none⟩) ∧
    (¬ (maxInput > 0 ∧ tokens > maxInput) →
      (sumTokens (evictWindow window (now - 60)) + tokens ≤ maxTPM →
        checkCapacity maxInput maxTPM tokens now (.ok window) = ⟨true, 0, none⟩) ∧
      (∀ e rest,
        sumTokens (evictWindow window (now - 60)) + tokens > maxTPM →
        evictWindow window (now - 60) = e :: rest →
        (∀ x ∈ e :: rest, (entryTokens x).isSome) →
        (∀ x ∈ e :: rest, x.score ≤ now) →
        checkCapacity maxInput maxTPM tokens now (.ok window) =
          ⟨false, max 1 (minScore e rest - (now - 60)), none⟩)) ∧
    (∀ pipe, (checkCapacity maxInput maxTPM tokens now pipe).hasCapacity = false →
      1 ≤ (checkCapacity maxInput maxTPM tokens now pipe).retryAfter) := by
  refine ⟨?_, ?_, ?_⟩
  · intro h pipe
    simp [checkCapacity, h]
  · intro h
    constructor
    · intro hle
      have hgt : ¬ sumTokens (evictWindow window (now - 60)) + tokens > maxTPM := by omega
      simp [checkCapacity, h, hgt]
    · intro e rest hgt hw hp hs
      rw [← hw] at hp hs
      simp only [checkCapacity, if_neg h]
      rw [show (⟨false, max 1 (minScore e rest - (now - 60)), none⟩ : CapacityResult) =
        ⟨false, max 1 (oldestTime (evictWindow window (now - 60)) now - (now - 60)), none⟩ by
          rw [hw, oldestTime_eq_minScore e rest now (hw ▸ hp) (hw ▸ hs)]]
      simp [hgt]
  · intro pipe
    by_cases h : maxInput > 0 ∧ tokens > maxInput
    · simp [checkCapacity, h]
    · cases pipe with
      | error e => simp [checkCapacity, h]
      | ok w =>
        by_cases hgt : sumTokens (evictWindow w (now - 60)) + tokens > maxTPM
        · intro _
          simp only [checkCapacity, if_neg h]
          simp [hgt]
        · simp [checkCapacity, h, hgt]

/-- Witness for C1: the S2 scenario (window holds `"90:1"` at score
`now − 10`, `max_tpm = 100`, 20 tokens requested: denial with
`retry_after = 50`) and an input-cap denial (`max_input_tokens = 200`,
300 tokens requested: denial with `retry_after = 60`). -/
theorem checkCapacity_correct_witness :
    checkCapacity 0 100 20 1000 (Except.ok [⟨"90:1", 990⟩]) = ⟨false, 50, none⟩ ∧
    checkCapacity 200 100 300 1000 (Except.ok []) = ⟨false, 60, none⟩ := by
  constructor
  · have h := ((checkCapacity_correct 0 100 20 1000 [⟨"90:1", 990⟩]).2.1 (by decide)).2
      ⟨"90:1", 990⟩ [] (by decide) (by decide) (by decide) (by decide)
    rw [h]
    decide
  · exact (checkCapacity_correct 200 100 300 1000 []).1 (by decide) _

/-- C6: when the Redis pipeline of `CheckCapacity` fails and the
pipeline is actually consulted (i.e. the request was not already denied
by the input-token cap, which precedes the store access), the request
is admitted with `retry_after = 0` and a `nil` error: the admission
path fails open. -/
theorem checkCapacity_fail_open (maxInput maxTPM tokens now : Int)
    (h : ¬ (maxInput > 0 ∧ tokens > maxInput)) :
    checkCapacity maxInput maxTPM tokens now (Except.error ()) = ⟨true, 0, none⟩ := by
  simp [checkCapacity, h]

/-- Witness for C6: a concrete store failure admits with
`retry_after = 0`. -/
theorem checkCapacity_fail_open_witness :
    checkCapacity 0 60000 50 1234 (Except.error ()) = ⟨true, 0, none⟩ :=
  checkCapacity_fail_open 0 60000 50 1234 (by decide)

/-- C4: `TransformOpenAIToAzure` (with the token estimator returning
`requiredTokens`) rewrites the outgoing `max_tokens` to
`requiredTokens + 5000` exactly when `max_tokens` is present as a
number that exceeds 5000 and exceeds `requiredTokens + 5000` and the
model name does not contain `"2024-05-13"`; in every other case the
outgoing `max_tokens` equals the incoming one. -/
theorem transform_maxTokens_clamp (endpoint : String) (payload : Payload)
    (requiredTokens : Int) (m : String)
    (hm : lookupVal payload "model" = some (.str m)) (hne : m ≠ "") :
    ∃ tr, transformOpenAIToAzure (fun _ _ _ => .ok requiredTokens) endpoint payload = .ok tr ∧
      tr.requiredTokens = requiredTokens ∧
      ((∃ q, lookupVal payload "max_tokens" = some (.num q) ∧
          goIntOfFloat q > 5000 ∧ goIntOfFloat q > requiredTokens + 5000 ∧
          goContains m "2024-05-13" = false) →
        lookupVal tr.payload "max_tokens" = some (.int (requiredTokens + 5000))) ∧
      ((¬ ∃ q, lookupVal payload "max_tokens" = some (.num q) ∧
          goIntOfFloat q > 5000 ∧ goIntOfFloat q > requiredTokens + 5000 ∧
          goContains m "2024-05-13" = false) →
        lookupVal tr.payload "max_tokens" = lookupVal payload "max_tokens") := by
  have hmt : lookupVal (removeKey payload "model") "max_tokens" = lookupVal payload "max_tokens" :=
    lookupVal_removeKey _ _ _ (by decide)
  simp only [transformOpenAIToAzure, hm, if_neg hne]
  refine ⟨_, rfl, rfl, ?_, ?_⟩
  · rintro ⟨q, hq, h1, h2, h3⟩
    rw [show lookupVal (removeKey payload "model") "max_tokens" = some (JsonVal.num q) from
      hmt.trans hq]
    simp only
    rw [if_pos ⟨h1, h2, h3⟩]
    exact lookupVal_setKey_self _ _ _
  · intro hn
    rcases hcase : lookupVal (removeKey payload "model") "max_tokens" with _ | v
    · exact hmt
    · rcases v with s | q | n | b | _ | elems | fields
      · exact hmt
      · simp only
        by_cases hcond : goIntOfFloat q > 5000 ∧ goIntOfFloat q > requiredTokens + 5000 ∧
            goContains m "2024-05-13" = false
        · exact absurd ⟨q, hmt.symm.trans hcase, hcond⟩ hn
        · rw [if_neg hcond]; exact hmt
      · exact hmt
      · exact hmt
      · exact hmt
      · exact hmt
      · exact hmt

/-- Witness for C4: the S6 scenario pair — `max_tokens = 50000` with
estimate 2000 on model `gpt-4` clamps to 7000; the same payload with
model `gpt-4o-2024-05-13` is left at 50000. -/
theorem transform_maxTokens_clamp_witness :
    (∃ tr, transformOpenAIToAzure (fun _ _ _ => .ok 2000) "/v1/chat/completions"
        [("model", .str "gpt-4"), ("max_tokens", .num 50000)] = .ok tr ∧
      lookupVal tr.payload "max_tokens" = some (.int 7000)) ∧
    (∃ tr, transformOpenAIToAzure (fun _ _ _ => .ok 2000) "/v1/chat/completions"
        [("model", .str "gpt-4o-2024-05-13"), ("max_tokens", .num 50000)] = .ok tr ∧
      lookupVal tr.payload "max_tokens" = some (.num 50000)) := by
  constructor
  · obtain ⟨tr, htr, _, hclamp, _⟩ := transform_maxTokens_clamp "/v1/chat/completions"
      [("model", .str "gpt-4"), ("max_tokens", .num 50000)] 2000 "gpt-4" rfl (by decide)
    refine ⟨tr, htr, ?_⟩
    have h7000 : ((2000 : Int) + 5000) = 7000 := by decide
    have := hclamp ⟨50000, rfl, by decide, by decide, by decide⟩
    rwa [h7000] at this
  · obtain ⟨tr, htr, _, _, hnoclamp⟩ := transform_maxTokens_clamp "/v1/chat/completions"
      [("model", .str "gpt-4o-2024-05-13"), ("max_tokens", .num 50000)] 2000
      "gpt-4o-2024-05-13" rfl (by decide)
    refine ⟨tr, htr, ?_⟩
    have hun := hnoclamp ?_
    · exact hun.trans rfl
    · rintro ⟨q, hq, _, _, h3⟩
      have hq' : some (JsonVal.num 50000) = some (JsonVal.num q) := by
        rw [← hq]; rfl
      have : q = 50000 := by
        injection hq' with hv
        injection hv with hv2
        exact hv2.symm
      exact absurd h3 (by decide)

/-- C8: for every successfully transformed request with client model
`m`, the non-streaming response rewrite (`TransformAzureToOpenAI` with
the retained `original_model`) sets the `model` field of the response
to the lowercased `m`, and every parsed JSON chunk emitted by the
streaming relay carries `model` equal to the lowercased `m`. -/
theorem response_model_lowercased (est : String → Payload → String → Except String Int)
    (endpoint : String) (payload : Payload) (m : String) (tr : TransformResult)
    (hm : lookupVal payload "model" = some (.str m))
    (htr : transformOpenAIToAzure est endpoint payload = .ok tr) :
    (∀ resp, lookupVal (transformAzureToOpenAI resp tr.originalModel) "model" =
      some (.str (goToLower m))) ∧
    (∀ lines chunk, StreamOut.chunk chunk ∈ streamRelay tr.originalModel lines →
      lookupVal chunk "model" = some (.str (goToLower m))) := by
  have hom := transform_originalModel est endpoint payload m tr hm htr
  constructor
  · intro resp
    rw [transformAzureToOpenAI, hom]
    exact lookupVal_setKey_self _ _ _
  · intro lines
    induction lines with
    | nil =>
      intro chunk hmem
      simp [streamRelay] at hmem
    | cons l rest ih =>
      intro chunk hmem
      cases l with
      | dataJson c =>
        rcases List.mem_cons.mp hmem with he | hrest
        · have hc : chunk = transformAzureToOpenAI c tr.originalModel := by
            injection he
          rw [hc, transformAzureToOpenAI, hom]
          exact lookupVal_setKey_self _ _ _
        · exact ih chunk hrest
      | dataDone =>
        rcases List.mem_cons.mp hmem with he | hrest
        · exact absurd he (by simp)
        · simp at hrest
      | dataRaw s =>
        rcases List.mem_cons.mp hmem with he | hrest
        · exact absurd he (by simp)
        · exact ih chunk hrest
      | other s =>
        rcases List.mem_cons.mp hmem with he | hrest
        · exact absurd he (by simp)
        · exact ih chunk hrest

/-- Witness for C8: the S5 scenario — client model `GPT-4`, upstream
chunk and body with `model = "gpt-4-0613"`, both rewritten to
`"gpt-4"`. -/
theorem response_model_lowercased_witness :
    lookupVal (transformAzureToOpenAI [("id", .str "x"), ("model", .str "gpt-4-0613")]
      (TransformResult.originalModel
        ⟨"gpt-4", [], 10, "/v1/chat/completions", "POST"⟩)) "model" =
      some (.str (goToLower "GPT-4")) ∧
    lookupVal (transformAzureToOpenAI [("model", .str "gpt-4-0613")]
      (TransformResult.originalModel
        ⟨"gpt-4", [], 10, "/v1/chat/completions", "POST"⟩)) "model" =
      some (.str (goToLower "GPT-4")) := by
  have h := response_model_lowercased (fun _ _ _ => .ok 10) "/v1/chat/completions"
    [("model", .str "GPT-4")] "GPT-4" ⟨"gpt-4", [], 10, "/v1/chat/completions", "POST"⟩
    rfl rfl
  refine ⟨h.1 _, ?_⟩
  exact h.2 [.dataJson [("model", .str "gpt-4-0613")], .dataDone]
    (transformAzureToOpenAI [("model", .str "gpt-4-0613")]
      (TransformResult.originalModel ⟨"gpt-4", [], 10, "/v1/chat/completions", "POST"⟩))
    (List.mem_cons_self _ _)

/-- C2 counterexample: on a concrete denied request the dispatcher's
429 `UpstreamError` carries details `instance` and `tokens` only — no
`retry_after` key — and consequently no `Retry-After` header is set.
This refutes the claim that the denial details contain `retry_after`. -/
theorem rateLimit_denial_counterexample :
    (handleProxyRequest oracleRateLimited "/v1/chat/completions").1 = .errorResponse
      (newUpstreamError "rate limit exceeded" 429
        [("instance", .str "azure-1"), ("tokens", .int 42)] 1700000000) ∧
    lookupVal [("instance", JsonVal.str "azure-1"), ("tokens", JsonVal.int 42)]
      "retry_after" = none ∧
    retryAfterHeader (newUpstreamError "rate limit exceeded" 429
      [("instance", .str "azure-1"), ("tokens", .int 42)] 1700000000) = none :=
  ⟨rfl, rfl, rfl⟩

/-- C2 amended: every rate-limit denial emits
`UpstreamError(429, "rate limit exceeded")` whose details hold the
instance name and the required tokens but no `retry_after` key, so its
`GetRetryAfter` is 0 and no `Retry-After` header accompanies it; the
header mechanism itself sets `Retry-After` exactly when
`details.retry_after` is positive. -/
theorem rateLimit_denial_shape :
    (∀ o endpoint instanceName t,
      DispatchEvent.checkRateLimit instanceName t ∈ (handleProxyRequest o endpoint).2 →
      (o.checkRateLimit instanceName t).1 = false →
      (handleProxyRequest o endpoint).1 = .errorResponse
        (newUpstreamError "rate limit exceeded" 429
          [("instance", .str instanceName), ("tokens", .int t)] o.now)) ∧
    (∀ instanceName t now,
      lookupVal [("instance", JsonVal.str instanceName), ("tokens", JsonVal.int t)]
        "retry_after" = none ∧
      getRetryAfter (newUpstreamError "rate limit exceeded" 429
        [("instance", .str instanceName), ("tokens", .int t)] now) = 0 ∧
      retryAfterHeader (newUpstreamError "rate limit exceeded" 429
        [("instance", .str instanceName), ("tokens", .int t)] now) = none) ∧
    (∀ e : ProxyError, (retryAfterHeader e).isSome = true ↔ 0 < getRetryAfter e) := by
  refine ⟨?_, fun i t now => ⟨rfl, rfl, rfl⟩, ?_⟩
  · intro o ep instanceName t hmem hden
    unfold handleProxyRequest at hmem ⊢
    split at hmem
    next heq => simp at hmem
    next payload heq =>
      split at hmem
      next msg heq₂ => simp at hmem
      next heq₂ =>
        split at hmem
        next e heq₃ => simp at hmem
        next sel heq₃ =>
          split at hmem
          next e heq₄ => simp at hmem
          next cfg heq₄ =>
            split at hmem
            next e heq₅ => simp at hmem
            next tr heq₅ =>
              split at hmem
              next hrl =>
                simp only [List.mem_cons, List.not_mem_nil, or_false] at hmem
                rcases hmem with he | he
                · exact absurd he (by simp)
                · have h₁ : instanceName = sel := by injection he
                  have h₂ : t = tr.requiredTokens := by injection he
                  subst h₁
                  subst h₂
                  simp [heq, heq₂, heq₃, heq₄, heq₅, hrl]
              next hrl =>
                split at hmem <;>
                · simp only [List.mem_cons, List.not_mem_nil, or_false] at hmem
                  rcases hmem with he | he
                  · exact absurd he (by simp)
                  · have h₁ : instanceName = sel := by injection he
                    have h₂ : t = tr.requiredTokens := by injection he
                    subst h₁
                    subst h₂
                    exact absurd hden hrl
  · intro e
    by_cases h : 0 < getRetryAfter e
    · simp [retryAfterHeader, h]
    · simp [retryAfterHeader, h]

/-- Witness for C2 amended: on the concrete denied request, the
dispatcher's outcome is exactly the retry_after-free 429 error. -/
theorem rateLimit_denial_shape_witness :
    (handleProxyRequest oracleRateLimited "/v1/chat/completions").1 = .errorResponse
      (newUpstreamError "rate limit exceeded" 429
        [("instance", .str "azure-1"), ("tokens", .int 42)] oracleRateLimited.now) :=
  rateLimit_denial_shape.1 oracleRateLimited "/v1/chat/completions" "azure-1" 42
    (by decide) rfl

/-- C10: the dispatcher always invokes instance selection with a
required-token argument of 0; every rate-limit check it issues uses the
token estimate of the transformed request; and with 0 tokens the
selector's capability filter never drops an instance on token grounds —
membership reduces to the enabled/provider/model checks whenever
`max_tpm` is non-negative. -/
theorem selection_token_argument_zero :
    (∀ o endpoint model t providerType,
      DispatchEvent.selectInstance model t providerType ∈ (handleProxyRequest o endpoint).2 →
      t = 0) ∧
    (∀ o endpoint instanceName t,
      DispatchEvent.checkRateLimit instanceName t ∈ (handleProxyRequest o endpoint).2 →
      ∃ payload tr, o.bindJSON = .ok payload ∧
        transformOpenAIToAzure o.est endpoint payload = .ok tr ∧
        t = tr.requiredTokens) ∧
    (∀ configs model providerType cfg, cfg ∈ configs → 0 ≤ cfg.maxTPM →
      (cfg ∈ preFilterConfigs configs model 0 providerType ↔
        cfg.enabled = true ∧ (providerType = "" ∨ cfg.providerType = providerType) ∧
        modelSupported cfg model = true)) := by
  refine ⟨?_, ?_, ?_⟩
  · intro o ep model t pt hmem
    unfold handleProxyRequest at hmem
    split at hmem
    next heq => simp at hmem
    next payload heq =>
      split at hmem
      next msg heq₂ => simp at hmem
      next heq₂ =>
        split at hmem
        next e heq₃ =>
          simp only [List.mem_cons, List.not_mem_nil, or_false] at hmem
          injection hmem
        next sel heq₃ =>
          split at hmem
          next e heq₄ =>
            simp only [List.mem_cons, List.not_mem_nil, or_false] at hmem
            injection hmem
          next cfg heq₄ =>
            split at hmem
            next e heq₅ =>
              simp only [List.mem_cons, List.not_mem_nil, or_false] at hmem
              injection hmem
            next tr heq₅ =>
              split at hmem
              next hrl =>
                simp only [List.mem_cons, List.not_mem_nil, or_false] at hmem
                rcases hmem with he | he
                · injection he
                · exact absurd he (by simp)
              next hrl =>
                split at hmem <;>
                · simp only [List.mem_cons, List.not_mem_nil, or_false] at hmem
                  rcases hmem with he | he
                  · injection he
                  · exact absurd he (by simp)
  · intro o ep instanceName t hmem
    unfold handleProxyRequest at hmem
    split at hmem
    next heq => simp at hmem
    next payload heq =>
      split at hmem
      next msg heq₂ => simp at hmem
      next heq₂ =>
        split at hmem
        next e heq₃ =>
          simp only [List.mem_cons, List.not_mem_nil, or_false] at hmem
          exact absurd hmem (by simp)
        next sel heq₃ =>
          split at hmem
          next e heq₄ =>
            simp only [List.mem_cons, List.not_mem_nil, or_false] at hmem
            exact absurd hmem (by simp)
          next cfg heq₄ =>
            split at hmem
            next e heq₅ =>
              simp only [List.mem_cons, List.not_mem_nil, or_false] at hmem
              exact absurd hmem (by simp)
            next tr heq₅ =>
              have hconc : t = tr.requiredTokens → ∃ payload' tr',
                  o.bindJSON = .ok payload' ∧
                  transformOpenAIToAzure o.est ep payload' = .ok tr' ∧
                  t = tr'.requiredTokens :=
                fun ht => ⟨payload, tr, heq, heq₅, ht⟩
              split at hmem
              next hrl =>
                simp only [List.mem_cons, List.not_mem_nil, or_false] at hmem
                rcases hmem with he | he
                · exact absurd he (by simp)
                · exact hconc (by injection he)
              next hrl =>
                split at hmem <;>
                · simp only [List.mem_cons, List.not_mem_nil, or_false] at hmem
                  rcases hmem with he | he
                  · exact absurd he (by simp)
                  · exact hconc (by injection he)
  · intro configs model pt cfg hmem h0
    rw [preFilterConfigs, List.mem_filter]
    simp only [decide_eq_true_eq]
    constructor
    · rintro ⟨_, h1, h2, h3, _⟩
      exact ⟨h1, h2, h3⟩
    · rintro ⟨h1, h2, h3⟩
      exact ⟨hmem, h1, h2, h3, by omega⟩

/-- Witness for C10: the concrete enabled instance passes the
zero-token capability filter, and the rate-limit check issued for the
concrete denied request carries exactly the transform's 42-token
estimate. -/
theorem selection_token_argument_zero_witness :
    cfgAzureOne ∈ preFilterConfigs [cfgAzureOne] "gpt-4" 0 "azure" ∧
    (∃ payload tr, oracleRateLimited.bindJSON = .ok payload ∧
      transformOpenAIToAzure oracleRateLimited.est "/v1/chat/completions" payload = .ok tr ∧
      (42 : Int) = tr.requiredTokens) := by
  constructor
  · exact (selection_token_argument_zero.2.2 [cfgAzureOne] "gpt-4" "azure" cfgAzureOne
      (List.mem_singleton.mpr rfl) (by decide)).mpr ⟨rfl, Or.inr rfl, by decide⟩
  · exact selection_token_argument_zero.2.1 oracleRateLimited "/v1/chat/completions"
      "azure-1" 42 (by decide)

/-- C3: after any error-accounting step whose resulting state has
`error_count / total_requests × 100 > 50` and `total_requests > 10`,
the state carries `status = error` and `health_status = "unhealthy"`;
and no selection ever returns an instance whose stored state is not
healthy. -/
theorem errorRate_demotion_and_exclusion :
    (∀ s statusCode,
      (((recordError s statusCode).errorCount : ℚ) /
          ((recordError s statusCode).totalRequests : ℚ) * 100 > 50 ∧
        (recordError s statusCode).totalRequests > 10) →
      (recordError s statusCode).status = .error ∧
      (recordError s statusCode).healthStatus = "unhealthy") ∧
    (∀ getState checkRL routingStrategy rngTarget configs model tokens providerType
        name st,
      getState name = .ok st → st.isHealthy = false →
      selectInstanceForRequest getState checkRL routingStrategy rngTarget configs model
        tokens providerType ≠ .ok name) := by
  constructor
  · intro s statusCode h
    unfold recordError at h ⊢
    by_cases hc : ((recordErrorBucket (recordErrorBump s) statusCode).errorCount : ℚ) /
        ((recordErrorBucket (recordErrorBump s) statusCode).totalRequests : ℚ) * 100 > 50 ∧
        (recordErrorBucket (recordErrorBump s) statusCode).totalRequests > 10
    · rw [if_pos hc]
      exact ⟨rfl, rfl⟩
    · rw [if_neg hc] at h
      exact absurd h hc
  · intro getState checkRL routingStrategy rngTarget configs model tokens providerType
      name st hst hunhealthy hok
    obtain ⟨y, hy, hyname⟩ := selectInstanceForRequest_mem getState checkRL
      routingStrategy rngTarget configs model tokens providerType name hok
    obtain ⟨hgs, hh, -, -⟩ := eligibleList_mem getState checkRL _ tokens y hy
    rw [hyname, hst] at hgs
    have hstate : st = y.state := by injection hgs
    rw [hstate, hh] at hunhealthy
    exact Bool.noConfusion hunhealthy

/-- Witness for C3: one more 500 on a state with 10 errors in 10
requests crosses the threshold and demotes; and with the store
reporting `stateUnhealthy` for `azure-1`, selection does not return
`azure-1`. -/
theorem errorRate_demotion_and_exclusion_witness :
    ((recordError stateManyErrors 500).status = .error ∧
      (recordError stateManyErrors 500).healthStatus = "unhealthy") ∧
    selectInstanceForRequest (fun _ => .ok stateUnhealthy) (fun _ _ => (true, none))
      "failover" 0 [cfgAzureOne] "gpt-4" 0 "azure" ≠ .ok "azure-1" := by
  constructor
  · exact errorRate_demotion_and_exclusion.1 stateManyErrors 500
      (by norm_num [recordError, recordErrorBucket, recordErrorBump, stateManyErrors,
        newInstanceState])
  · exact errorRate_demotion_and_exclusion.2 (fun _ => .ok stateUnhealthy)
      (fun _ _ => (true, none)) "failover" 0 [cfgAzureOne] "gpt-4" 0 "azure"
      "azure-1" stateUnhealthy rfl (by decide)

/-- C5 counterexample: starting from a fresh state, one successful
request with latency 200 makes `avg_latency_ms` the EMA of its
successful-request latencies (`some 200`); a subsequent healthy
health-check result with probe latency 50 — which records no
successful request — overwrites it to `some 50 ≠ some 200`.  This
refutes the claim that every state-mutating operation, health updates
included, preserves the EMA invariant. -/
theorem avgLatency_health_overwrite_counterexample :
    (recordUsage (newInstanceState "a" 0) 10 5 200).avgLatencyMs = emaOf [200] ∧
    (updateInstanceHealth (recordUsage (newInstanceState "a" 0) 10 5 200)
      ⟨"a", true, 50, none⟩ 6).avgLatencyMs = some 50 ∧
    (updateInstanceHealth (recordUsage (newInstanceState "a" 0) 10 5 200)
      ⟨"a", true, 50, none⟩ 6).successfulRequests =
      (recordUsage (newInstanceState "a" 0) 10 5 200).successfulRequests ∧
    emaOf [200] = some 200 ∧ (50 : ℚ) ≠ 200 := by
  refine ⟨rfl, rfl, rfl, rfl, by norm_num⟩

/-- C5 amended: `avg_latency_ms` follows the EMA(0.1) of
successful-request latencies under success accounting (each
`recordUsage` folds its sample into the EMA, seeded at the first
sample) and is left unchanged by error accounting; but a health update
does not preserve it — a healthy probe result overwrites it with the
probe latency, re-seeding the EMA, while an unhealthy one leaves it
unchanged. -/
theorem avgLatency_ema_behavior :
    (∀ s tokens now latency samples, s.avgLatencyMs = emaOf samples →
      (recordUsage s tokens now latency).avgLatencyMs = emaOf (samples ++ [latency])) ∧
    (∀ s statusCode, (recordError s statusCode).avgLatencyMs = s.avgLatencyMs) ∧
    (∀ s r now, r.isHealthy = true →
      (updateInstanceHealth s r now).avgLatencyMs = some r.latencyMs) ∧
    (∀ s r now, r.isHealthy = false →
      (updateInstanceHealth s r now).avgLatencyMs = s.avgLatencyMs) := by
  refine ⟨?_, ?_, ?_, ?_⟩
  · intro s tokens now latency samples hs
    rw [recordUsage]
    rw [emaOf, List.foldl_append, ← emaOf, ← hs]
    cases s.avgLatencyMs with
    | none => rfl
    | some avg => rfl
  · intro s statusCode
    unfold recordError
    split
    · exact recordErrorBucket_avgLatencyMs _ _
    · exact recordErrorBucket_avgLatencyMs _ _
  · intro s r now hr
    simp [updateInstanceHealth, hr]
  · intro s r now hr
    rw [updateInstanceHealth, if_neg (by simp [hr])]
    cases r.errMsg <;> rfl

/-- Witness for C5 amended: a fresh state folds a 200ms sample into
the EMA; error accounting leaves the average alone; a healthy probe
sets it to the probe latency. -/
theorem avgLatency_ema_behavior_witness :
    (recordUsage (newInstanceState "b" 0) 10 5 200).avgLatencyMs = emaOf ([] ++ [200]) ∧
    (recordError (newInstanceState "b" 0) 500).avgLatencyMs =
      (newInstanceState "b" 0).avgLatencyMs ∧
    (updateInstanceHealth (newInstanceState "b" 0) ⟨"b", true, 50, none⟩ 6).avgLatencyMs =
      some 50 := by
  refine ⟨?_, avgLatency_ema_behavior.2.1 _ 500, ?_⟩
  · exact avgLatency_ema_behavior.1 (newInstanceState "b" 0) 10 5 200 [] rfl
  · exact avgLatency_ema_behavior.2.2.1 _ ⟨"b", true, 50, none⟩ 6 rfl

/-- C7 counterexample: two eligible instances share the minimal
priority; a stable tie-break by name would pick `a`, but the code
returns `b`, the first in list order — `selectByFailover`'s comparator
consults only `Priority`, never the name (for this two-element slice
Go's `sort.Slice` runs a stable insertion sort, so the list order of
the equal pair is preserved). -/
theorem selectByFailover_name_tiebreak_counterexample :
    iwsTieB.config.priority = iwsTieA.config.priority ∧
    iwsTieA.config.name = "a" ∧ iwsTieB.config.name = "b" ∧ ('a' : Char) < 'b' ∧
    selectByFailover [iwsTieB, iwsTieA] = iwsTieB.config.name ∧
    iwsTieB.config.name ≠ iwsTieA.config.name := by
  exact ⟨rfl, rfl, rfl, by decide, rfl, by decide⟩

/-- C7 amended: on a non-empty eligibility list the failover strategy
returns the name of an eligible instance whose priority is minimal;
which of several equal-priority instances is returned is
implementation-defined (`sort.Slice` is unstable) and in particular is
not determined by name.  Part one states this for the embedded
selector (which fixes one admissible tie order); part two states it
for *every* sorted permutation `sort.Slice` may produce: its element 0
is always a member of the input attaining the minimal priority. -/
theorem selectByFailover_min_priority :
    (∀ l : List InstanceWithState, l ≠ [] →
      ∃ chosen ∈ l, selectByFailover l = chosen.config.name ∧
        ∀ y ∈ l, chosen.config.priority ≤ y.config.priority) ∧
    (∀ (l sorted : List InstanceWithState), sortSliceByPriorityPost l sorted →
      ∀ x xs, sorted = x :: xs →
        x ∈ l ∧ ∀ y ∈ l, x.config.priority ≤ y.config.priority) := by
  constructor
  · intro l hne
    match l, hne with
    | x :: xs, _ =>
      obtain ⟨pre, post, heq, hmin, -⟩ := firstMinByPriority_spec x xs
      refine ⟨firstMinByPriority x xs, ?_, rfl, hmin⟩
      rw [heq]
      exact List.mem_append_right _ (List.mem_cons_self _ _)
  · intro l sorted hpost x xs hsorted
    obtain ⟨hperm, hpair⟩ := hpost
    subst hsorted
    constructor
    · exact hperm.mem_iff.mp (List.mem_cons_self x xs)
    · intro y hy
      have hy' : y ∈ x :: xs := hperm.mem_iff.mpr hy
      rcases List.mem_cons.mp hy' with rfl | hy''
      · exact le_refl _
      · exact le_of_not_lt ((List.pairwise_cons.mp hpair).1 y hy'')

/-- Witness for C7 amended: at the concrete two-element tie, the
embedded selector returns a minimal-priority member; and
`[iwsTieA, iwsTieB]` — the *other* admissible outcome of the unstable
sort — also surfaces a minimal-priority member at element 0. -/
theorem selectByFailover_min_priority_witness :
    (∃ chosen ∈ ([iwsTieB, iwsTieA] : List InstanceWithState),
      selectByFailover [iwsTieB, iwsTieA] = chosen.config.name ∧
      ∀ y ∈ ([iwsTieB, iwsTieA] : List InstanceWithState),
        chosen.config.priority ≤ y.config.priority) ∧
    (iwsTieA ∈ ([iwsTieB, iwsTieA] : List InstanceWithState) ∧
      ∀ y ∈ ([iwsTieB, iwsTieA] : List InstanceWithState),
        iwsTieA.config.priority ≤ y.config.priority) := by
  constructor
  · exact selectByFailover_min_priority.1 [iwsTieB, iwsTieA] (List.cons_ne_nil _ _)
  · exact selectByFailover_min_priority.2 [iwsTieB, iwsTieA] [iwsTieA, iwsTieB]
      ⟨List.Perm.swap iwsTieB iwsTieA [], by decide⟩ iwsTieA [iwsTieB] rfl

/-- C9: under the weighted strategy (with non-negative weights and
distinct instance names), the Go `totalWeight` accumulator equals the
weight sum; for every target in `[0, Σ weight)` the selector returns
the first instance in list order whose prefix sum of weights strictly
exceeds the target (equivalently, the unique `i` with
`wsumTake i ≤ target < wsumTake (i+1)`); and the number of targets
selecting instance `i` is exactly its weight, so a uniform target
chooses each instance with probability `weight / Σ weight`. -/
theorem selectByWeight_distribution (l : List InstanceWithState)
    (hw : ∀ x ∈ l, 0 ≤ x.config.weight)
    (hnodup : (l.map (fun x => x.config.name)).Nodup) :
    totalWeight l = wsum l ∧
    (∀ target : Int, 0 ≤ target → target < wsum l →
      ∃ i, ∃ h : i < l.length,
        selectByWeight l target = (l.get ⟨i, h⟩).config.name ∧
        wsumTake l i ≤ target ∧ target < wsumTake l (i + 1)) ∧
    (∀ i, ∀ h : i < l.length,
      ((Finset.Ico (0 : ℤ) (wsum l)).filter
          (fun target => selectByWeight l target = (l.get ⟨i, h⟩).config.name)).card =
        ((l.get ⟨i, h⟩).config.weight).toNat) := by
  refine ⟨by simpa using foldl_weight_eq l 0,
    fun target h0 ht => selectByWeight_spec l hw target h0 ht, ?_⟩
  intro i h
  have hgetname : ∀ (j : Nat) (hj : j < l.length),
      (l.map (fun x => x.config.name)).get ⟨j, by simpa using hj⟩ =
        (l.get ⟨j, hj⟩).config.name := by
    intro j hj
    simp [List.get_eq_getElem, List.getElem_map]
  have hidx : ∀ (j : Nat) (hj : j < l.length),
      (l.get ⟨i, h⟩).config.name = (l.get ⟨j, hj⟩).config.name → i = j := by
    intro j hj hname
    have hEq : (l.map (fun x => x.config.name)).get ⟨i, by simpa using h⟩ =
        (l.map (fun x => x.config.name)).get ⟨j, by simpa using hj⟩ := by
      rw [hgetname i h, hgetname j hj]
      exact hname
    have hfin := List.nodup_iff_injective_get.mp hnodup hEq
    simpa using congrArg Fin.val hfin
  have htot : wsumTake l (i + 1) ≤ wsum l := by
    rw [← wsumTake_of_le l l.length (le_refl _)]
    exact wsumTake_mono l hw (i + 1) l.length h
  have hset : (Finset.Ico (0 : ℤ) (wsum l)).filter
      (fun target => selectByWeight l target = (l.get ⟨i, h⟩).config.name) =
      Finset.Ico (wsumTake l i) (wsumTake l (i + 1)) := by
    ext t
    simp only [Finset.mem_filter, Finset.mem_Ico]
    constructor
    · rintro ⟨⟨h0, ht⟩, hsel⟩
      obtain ⟨j, hj, hsel', hlo, hhi⟩ := selectByWeight_spec l hw t h0 ht
      have hij : i = j := hidx j hj (by rw [← hsel, ← hsel'])
      subst hij
      exact ⟨hlo, hhi⟩
    · rintro ⟨hlo, hhi⟩
      have h0 : 0 ≤ t := le_trans (wsumTake_nonneg l hw i) hlo
      have ht : t < wsum l := lt_of_lt_of_le hhi htot
      obtain ⟨j, hj, hsel', hlo', hhi'⟩ := selectByWeight_spec l hw t h0 ht
      have hij : i = j := wsumTake_interval_unique l hw i j t hlo hhi hlo' hhi'
      subst hij
      exact ⟨⟨h0, ht⟩, hsel'⟩
  rw [hset, Int.card_Ico, wsumTake_succ_get l i h]
  omega

/-- Witness for C9: the S4 weights {1, 2, 7} — total weight 10, target
2 falls to the weight-2 instance's interval, and exactly 7 of the 10
targets select the weight-7 instance. -/
theorem selectByWeight_distribution_witness :
    totalWeight wList = wsum wList ∧
    (∃ i, ∃ h : i < wList.length,
      selectByWeight wList 2 = (wList.get ⟨i, h⟩).config.name ∧
      wsumTake wList i ≤ 2 ∧ (2 : Int) < wsumTake wList (i + 1)) ∧
    ((Finset.Ico (0 : ℤ) (wsum wList)).filter
        (fun target => selectByWeight wList target =
          (wList.get ⟨2, by decide⟩).config.name)).card = 7 := by
  have hw : ∀ x ∈ wList, 0 ≤ x.config.weight := by decide
  have hnodup : (wList.map (fun x => x.config.name)).Nodup := by decide
  refine ⟨(selectByWeight_distribution wList hw hnodup).1, ?_, ?_⟩
  · exact (selectByWeight_distribution wList hw hnodup).2.1 2 (by decide) (by decide)
  · have h3 := (selectByWeight_distribution wList hw hnodup).2.2 2 (by decide)
    simpa using h3

end AzureOpenAIProxy
